import Mathlib

/-!
# CvImshowThread: a verification development

Shallow embedding of `CvImshowThread.h`.  One `CvImShowThread` object is a
record of its member variables.  Every public member function and one
scheduling of the worker thread (one evaluation of the wait predicate followed,
when it holds, by one pass through the loop body) is an atomic step on that
record.  Calls into OpenCV highgui (`cv::namedWindow`, `cv::imshow`, ...) are
not interpreted: they are appended, in program order, to a call trace.

`std::mutex m_windowMtx` is not recursive.  A step that tries to take it while
it is already held does not return; such a step has no successor state
(`none`).  `m_imgMtx` is never requested by the thread that holds it, so its
acquisition always succeeds between atomic steps and it carries no state here.
During the lifetime of the object `notify_one` is not modelled: a worker wake
may be scheduled at any point, which also covers spurious wake-ups.  In the
destructor the notification matters: `m_isAlive` is stored and `notify_all`
called without `m_imgMtx`, so a worker that has evaluated the wait predicate but
has not blocked yet misses it.  Whether the notification reaches the worker is
a parameter of the destructor.
-/

namespace CvImshowThread

/-! ## Data model -/

/-- Pixel payload of a `cv::Mat`.  Only the contents and emptiness are observed. -/
structure Mat where
  pixels : List Nat
deriving DecidableEq

/-- The default-constructed matrix of `cv::Mat dispImg;`. -/
def Mat.default : Mat := ⟨[]⟩

/-- Model of `cv::Mat::empty()`. -/
def Mat.empty (m : Mat) : Bool := m.pixels.isEmpty

/-- Model of `cv::Mat::clone()`: a deep copy, equal to the original as a value. -/
def Mat.clone (m : Mat) : Mat := ⟨m.pixels⟩

/-- Model of `cv::Size`. -/
structure Size where
  width : Int
  height : Int
deriving DecidableEq

/-- Values of the enum `cv::WindowFlags`, as their underlying integers. -/
abbrev WindowFlags := Int

/-- Values of the enum `cv::WindowPropertyFlags`, as their underlying integers. -/
abbrev WindowPropertyFlags := Int

/-- A C++ `double`, carried as its 64-bit pattern; no arithmetic is done on it. -/
abbrev Double := Nat

/-- The highgui constant `cv::WINDOW_NORMAL` (value `0x00000000` in OpenCV). -/
def WINDOW_NORMAL : WindowFlags := 0

/-- One call into OpenCV highgui, with its arguments. -/
inductive SurfaceCall where
  | namedWindow (winname : String) (flags : WindowFlags)
  | moveWindow (winname : String) (x y : Int)
  | imshow (winname : String) (mat : Mat)
  | waitKey (delay : Int)
  | destroyWindow (winname : String)
  | setWindowProperty (winname : String) (propId : WindowPropertyFlags) (propValue : Double)
  | setWindowTitle (winname : String) (title : String)
  | resizeWindow (winname : String) (width height : Int)
  | resizeWindowSz (winname : String) (size : Size)
deriving DecidableEq

/-- The subclasses of `CvImshowHelpFn::ICvImshowFn`, with their data members. -/
inductive ICvImshowFn where
  | SetWindowProperty (m_propertyFlags : WindowPropertyFlags) (m_propValue : Double)
  | SetWindowTitle (m_title : String)
  | ResizeWindowWH (m_width m_height : Int)
  | ResizeWindowSz (m_size : Size)
  | MoveWindow (m_x m_y : Int)
deriving DecidableEq

/-- The virtual `impl(windowName)` of each subclass: the single highgui call it makes. -/
def ICvImshowFn.impl : ICvImshowFn → String → SurfaceCall
  | .SetWindowProperty p v, windowName => .setWindowProperty windowName p v
  | .SetWindowTitle t, windowName => .setWindowTitle windowName t
  | .ResizeWindowWH w h, windowName => .resizeWindow windowName w h
  | .ResizeWindowSz sz, windowName => .resizeWindowSz windowName sz
  | .MoveWindow x y, windowName => .moveWindow windowName x y

/-- Where the worker thread stands between two atomic steps. -/
inductive WorkerPc where
  /-- About to test the `while (m_isAlive.load())` condition. -/
  | atLoopHead
  /-- Inside `m_newImgCv.wait` after the predicate returned false: about to block
  or blocked. -/
  | waiting
  /-- The lambda has returned. -/
  | exited
deriving DecidableEq

/-- The member variables of `CvImShowThread`, the lock state of `m_windowMtx`,
the position of the worker thread and the trace of highgui calls made so far. -/
structure State where
  m_windowName : String
  m_isAlive : Bool
  m_isWindowDistroyed : Bool
  m_newImg : Mat
  m_display : Bool
  m_isNewImg : Bool
  m_waitKey : Int
  m_windowFlags : WindowFlags
  m_x : Int
  m_y : Int
  m_pImshowFnBuffer : List ICvImshowFn
  windowMtxLocked : Bool
  pc : WorkerPc
  trace : List SurfaceCall
deriving DecidableEq

/-- The constructor `CvImShowThread(windowName)`, with the worker thread started. -/
def init (windowName : String) : State :=
  { m_windowName := windowName
    m_isAlive := true
    m_isWindowDistroyed := true
    m_newImg := Mat.default
    m_display := true
    m_isNewImg := false
    m_waitKey := 1
    m_windowFlags := WINDOW_NORMAL
    m_x := 0
    m_y := 0
    m_pImshowFnBuffer := []
    windowMtxLocked := false
    pc := WorkerPc.atLoopHead
    trace := [] }

/-! ## The window mutex -/

/-- Acquire `m_windowMtx` (`std::lock_guard` construction).  The mutex is not
recursive: when it is already held the caller never proceeds. -/
def lockWindowMtx (s : State) : Option State :=
  if s.windowMtxLocked then none else some { s with windowMtxLocked := true }

/-- Release `m_windowMtx` (`std::lock_guard` destruction). -/
def unlockWindowMtx (s : State) : State :=
  { s with windowMtxLocked := false }

/-- Append one highgui call to the trace. -/
def State.call (s : State) (c : SurfaceCall) : State :=
  { s with trace := s.trace ++ [c] }

/-! ## The worker thread -/

/-- The side effect at the head of the wait predicate: a hidden window that is
still on screen is destroyed. -/
def hideCheck (s : State) : Option State :=
  if !s.m_display then do
    let s ← lockWindowMtx s
    let s := if !s.m_isWindowDistroyed then
        { s.call (.destroyWindow s.m_windowName) with m_isWindowDistroyed := true }
      else s
    pure (unlockWindowMtx s)
  else some s

/-- The predicate passed to `m_newImgCv.wait`: its side effect, then its value. -/
def waitPredicate (s : State) : Option (Bool × State) := do
  let s ← hideCheck s
  pure (!s.m_isAlive || (s.m_isNewImg && s.m_display) || decide (s.m_pImshowFnBuffer.length > 0), s)

/-- The branch `if (m_display.load() && m_isNewImg) ...` of the loop body. -/
def frameStep (s : State) : Option State :=
  if s.m_display && s.m_isNewImg then
    let dispImg := if s.m_isNewImg then s.m_newImg else Mat.default
    let s := { s with m_newImg := if s.m_isNewImg then Mat.default else s.m_newImg }
    let s := { s with m_isNewImg := false }
    if !dispImg.empty then do
      let s ← lockWindowMtx s
      let s := if s.m_isWindowDistroyed then
          { ((s.call (.namedWindow s.m_windowName s.m_windowFlags)).call
              (.moveWindow s.m_windowName s.m_x s.m_y)) with m_isWindowDistroyed := false }
        else s
      let s := s.call (.imshow s.m_windowName dispImg)
      let s := s.call (.waitKey s.m_waitKey)
      pure (unlockWindowMtx s)
    else some s
  else some s

/-- The loop `while (m_pImshowFnBuffer.size() > 0) ...`, by recursion on the
queue contents: apply the front element to the window name, pop it. -/
def drainBuffer : List ICvImshowFn → State → State
  | [], s => { s with m_pImshowFnBuffer := [] }
  | f :: rest, s =>
      drainBuffer rest { s.call (f.impl s.m_windowName) with m_pImshowFnBuffer := rest }

/-- The command drain of the loop body, run on the current queue. -/
def drain (s : State) : State := drainBuffer s.m_pImshowFnBuffer s

/-- The loop body after `wait` has returned. -/
def loopBody (s : State) : Option State :=
  if !s.m_isAlive then some { s with pc := WorkerPc.exited }
  else do
    let s ← frameStep s
    pure { drain s with pc := WorkerPc.atLoopHead }

/-- One evaluation of the wait predicate and, when it holds, the loop body;
otherwise the worker blocks (again) in `wait`. -/
def waitThenBody (s : State) : Option State := do
  let (ready, s) ← waitPredicate s
  if ready then loopBody s else some { s with pc := WorkerPc.waiting }

/-- One scheduling of the worker thread. -/
def workerWake (s : State) : Option State :=
  match s.pc with
  | .exited => some s
  | .atLoopHead =>
      if !s.m_isAlive then some { s with pc := WorkerPc.exited } else waitThenBody s
  | .waiting => waitThenBody s

/-! ## Public member functions -/

/-- Member `imshow(newImg)`. -/
def imshow (newImg : Mat) (s : State) : Option State :=
  some { s with m_newImg := newImg.clone, m_isNewImg := true }

/-- Member `setDisplay(display)`. -/
def setDisplay (display : Bool) (s : State) : Option State :=
  some { s with m_display := display }

/-- Member `setWindowName(newWindowName)`. -/
def setWindowName (newWindowName : String) (s : State) : Option State := do
  let s ← lockWindowMtx s
  let s := if !s.m_isWindowDistroyed then
      { s.call (.destroyWindow s.m_windowName) with m_isWindowDistroyed := true }
    else s
  let s := { s with m_windowName := newWindowName }
  pure (unlockWindowMtx s)

/-- Member `setWaitKey(waitTime)`. -/
def setWaitKey (waitTime : Int) (s : State) : Option State :=
  some { s with m_waitKey := waitTime }

/-- Member `setWindowFlags(windowFlags)`. -/
def setWindowFlags (windowFlags : WindowFlags) (s : State) : Option State :=
  some { s with m_windowFlags := windowFlags }

/-- Append one element to `m_pImshowFnBuffer` under `m_windowMtx`: the common
body of the five queueing members. -/
def emplaceBack (f : ICvImshowFn) (s : State) : Option State := do
  let s ← lockWindowMtx s
  let s := { s with m_pImshowFnBuffer := s.m_pImshowFnBuffer ++ [f] }
  pure (unlockWindowMtx s)

/-- Member `setWindowProperty(propertyFlags, propValue)`. -/
def setWindowProperty (propertyFlags : WindowPropertyFlags) (propValue : Double)
    (s : State) : Option State :=
  emplaceBack (.SetWindowProperty propertyFlags propValue) s

/-- Member `setWindowTitle(title)`. -/
def setWindowTitle (title : String) (s : State) : Option State :=
  emplaceBack (.SetWindowTitle title) s

/-- Member `resizeWindow(width, height)`. -/
def resizeWindow (width height : Int) (s : State) : Option State :=
  emplaceBack (.ResizeWindowWH width height) s

/-- Member `resizeWindow(size)`. -/
def resizeWindowSz (size : Size) (s : State) : Option State :=
  emplaceBack (.ResizeWindowSz size) s

/-- Member `moveWindow(x, y)`. -/
def moveWindow (x y : Int) (s : State) : Option State :=
  emplaceBack (.MoveWindow x y) s

/-- Member `setWindowLocation(x, y)`.  The unqualified call `moveWindow(x, y)`
in its body resolves to the member above, not to `cv::moveWindow`. -/
def setWindowLocation (x y : Int) (s : State) : Option State := do
  let s ← lockWindowMtx s
  let s := { s with m_x := x, m_y := y }
  let s ← if !s.m_isWindowDistroyed then moveWindow x y s else some s
  pure (unlockWindowMtx s)

/-- Model of `m_processThread.join()`: the worker is scheduled until it has
exited, at most `fuel` times.  A worker inside `wait` runs again only when the
`notify_all` of the destructor reached it, which `notified` records; otherwise
it stays blocked and `join` does not return. -/
def join (notified : Bool) : Nat → State → Option State
  | 0, s => if s.pc = WorkerPc.exited then some s else none
  | fuel + 1, s =>
      if s.pc = WorkerPc.exited then some s
      else if s.pc = WorkerPc.waiting && !notified then none
      else (workerWake s).bind (join notified fuel)

/-- The destructor `~CvImShowThread()`.  `notified` says whether `notify_all`
found the worker blocked in `wait`; it is irrelevant for a worker that is not
inside `wait`. -/
def destructor (notified : Bool) (fuel : Nat) (s : State) : Option State := do
  let s := { s with m_isAlive := false }
  let s ← join notified fuel s
  pure (s.call (.destroyWindow s.m_windowName))

/-! ## Runs -/

/-- The atomic steps taken during the lifetime of the object. -/
inductive Op where
  | imshow (newImg : Mat)
  | setDisplay (display : Bool)
  | setWindowName (newWindowName : String)
  | setWaitKey (waitTime : Int)
  | setWindowFlags (windowFlags : WindowFlags)
  | setWindowLocation (x y : Int)
  | setWindowProperty (propertyFlags : WindowPropertyFlags) (propValue : Double)
  | setWindowTitle (title : String)
  | resizeWindow (width height : Int)
  | resizeWindowSz (size : Size)
  | moveWindow (x y : Int)
  | workerWake
deriving DecidableEq

/-- Effect of one atomic step; `none` when the step never completes. -/
def step : Op → State → Option State
  | .imshow newImg => imshow newImg
  | .setDisplay d => setDisplay d
  | .setWindowName n => setWindowName n
  | .setWaitKey t => setWaitKey t
  | .setWindowFlags f => setWindowFlags f
  | .setWindowLocation x y => setWindowLocation x y
  | .setWindowProperty p v => setWindowProperty p v
  | .setWindowTitle t => setWindowTitle t
  | .resizeWindow w h => resizeWindow w h
  | .resizeWindowSz sz => resizeWindowSz sz
  | .moveWindow x y => moveWindow x y
  | .workerWake => workerWake

/-- Effect of a sequence of atomic steps, left to right. -/
def run : List Op → State → Option State
  | [], s => some s
  | op :: ops, s => (step op s).bind (run ops)

/-- A state the object can be in after finitely many completed steps. -/
def Reachable (s : State) : Prop :=
  ∃ (windowName : String) (ops : List Op), run ops (init windowName) = some s

/-! ## Observations on traces -/

/-- The render calls (`cv::imshow`) of a trace, in order. -/
def renders : List SurfaceCall → List (String × Mat)
  | [] => []
  | .imshow n m :: cs => (n, m) :: renders cs
  | _ :: cs => renders cs

/-- The realization calls (`cv::namedWindow`) of a trace, in order. -/
def realizations : List SurfaceCall → List (String × WindowFlags)
  | [] => []
  | .namedWindow n f :: cs => (n, f) :: realizations cs
  | _ :: cs => realizations cs

/-- The window name a call refers to; `cv::waitKey` names none. -/
def SurfaceCall.targetName : SurfaceCall → Option String
  | .namedWindow n _ => some n
  | .moveWindow n _ _ => some n
  | .imshow n _ => some n
  | .waitKey _ => none
  | .destroyWindow n => some n
  | .setWindowProperty n _ _ => some n
  | .setWindowTitle n _ => some n
  | .resizeWindow n _ _ => some n
  | .resizeWindowSz n _ => some n

/-! ## Closed forms used by the proofs -/

/-- The calls made by the side effect of the wait predicate. -/
def hideCalls (s : State) : List SurfaceCall :=
  if !s.m_display && !s.m_isWindowDistroyed then [.destroyWindow s.m_windowName] else []

/-- The calls made by the frame branch of the loop body. -/
def frameCalls (s : State) : List SurfaceCall :=
  if s.m_display && s.m_isNewImg && !s.m_newImg.empty then
    (if s.m_isWindowDistroyed then
      [.namedWindow s.m_windowName s.m_windowFlags, .moveWindow s.m_windowName s.m_x s.m_y]
     else []) ++ [.imshow s.m_windowName s.m_newImg, .waitKey s.m_waitKey]
  else []

/-- The calls made by the command drain of the loop body. -/
def drainCalls (s : State) : List SurfaceCall :=
  s.m_pImshowFnBuffer.map (fun f => f.impl s.m_windowName)

/-- All calls made by one worker wake of a live worker. -/
def wakeCalls (s : State) : List SurfaceCall :=
  hideCalls s ++ frameCalls s ++ drainCalls s

/-- The state a live worker leaves behind after one wake. -/
def wakeResult (s : State) : State :=
  { s with
    trace := s.trace ++ wakeCalls s
    m_isWindowDistroyed :=
      if !s.m_display then true
      else if s.m_isNewImg && !s.m_newImg.empty then false
      else s.m_isWindowDistroyed
    m_isNewImg := s.m_isNewImg && !s.m_display
    m_newImg := if s.m_display && s.m_isNewImg then Mat.default else s.m_newImg
    m_pImshowFnBuffer := []
    pc := if (s.m_isNewImg && s.m_display) || !s.m_pImshowFnBuffer.isEmpty
          then WorkerPc.atLoopHead else WorkerPc.waiting }

/-- What holds of the object between two steps while it is alive: the worker
runs, the shutdown flag is clear and nobody holds the window mutex. -/
structure Inv (s : State) : Prop where
  alive : s.m_isAlive = true
  unlocked : s.windowMtxLocked = false
  running : s.pc ≠ WorkerPc.exited

/-- The calls made by one atomic step. -/
def stepCalls : Op → State → List SurfaceCall
  | .setWindowName _, s => if s.m_isWindowDistroyed then [] else [.destroyWindow s.m_windowName]
  | .workerWake, s => wakeCalls s
  | _, _ => []

/-- The calls made by a sequence of atomic steps. -/
def runCalls : List Op → State → List SurfaceCall
  | [], _ => []
  | op :: ops, s =>
      stepCalls op s ++ (match step op s with
        | some t => runCalls ops t
        | none => [])

/-- The state one atomic step leaves behind when it completes. -/
def stepResult : Op → State → State
  | .imshow newImg, s => { s with m_newImg := newImg.clone, m_isNewImg := true }
  | .setDisplay d, s => { s with m_display := d }
  | .setWindowName n, s =>
      { s with trace := s.trace ++ stepCalls (.setWindowName n) s
               m_isWindowDistroyed := true
               m_windowName := n }
  | .setWaitKey w, s => { s with m_waitKey := w }
  | .setWindowFlags f, s => { s with m_windowFlags := f }
  | .setWindowLocation x y, s => { s with m_x := x, m_y := y }
  | .setWindowProperty p v, s =>
      { s with m_pImshowFnBuffer := s.m_pImshowFnBuffer ++ [.SetWindowProperty p v] }
  | .setWindowTitle t, s =>
      { s with m_pImshowFnBuffer := s.m_pImshowFnBuffer ++ [.SetWindowTitle t] }
  | .resizeWindow w h, s =>
      { s with m_pImshowFnBuffer := s.m_pImshowFnBuffer ++ [.ResizeWindowWH w h] }
  | .resizeWindowSz sz, s =>
      { s with m_pImshowFnBuffer := s.m_pImshowFnBuffer ++ [.ResizeWindowSz sz] }
  | .moveWindow x y, s =>
      { s with m_pImshowFnBuffer := s.m_pImshowFnBuffer ++ [.MoveWindow x y] }
  | .workerWake, s => wakeResult s

/-- Whether an atomic step completes: `setWindowLocation` on a realized window
does not. -/
def stepEnabled : Op → State → Bool
  | .setWindowLocation _ _, s => s.m_isWindowDistroyed
  | _, _ => true

/-- The calls made by a destructor that completes: those of the last wake of the
worker, then the final `cv::destroyWindow`. -/
def teardownCalls (s : State) : List SurfaceCall :=
  (if s.pc = WorkerPc.waiting then hideCalls s else []) ++ [.destroyWindow s.m_windowName]

/-- The window flags in force after a step: `setWindowFlags` replaces them. -/
def flagsAfter (f : WindowFlags) : Op → WindowFlags
  | .setWindowFlags g => g
  | _ => f

/-- The window position in force after a step: `setWindowLocation` replaces it. -/
def locationAfter (p : Int × Int) : Op → Int × Int
  | .setWindowLocation x y => (x, y)
  | _ => p

/-- The wait time in force after a step: `setWaitKey` replaces it. -/
def waitKeyAfter (w : Int) : Op → Int
  | .setWaitKey v => v
  | _ => w

/-- The flags most recently given to `setWindowFlags`, `WINDOW_NORMAL` if none. -/
def lastWindowFlags (ops : List Op) : WindowFlags := ops.foldl flagsAfter WINDOW_NORMAL

/-- The position most recently given to `setWindowLocation`, `(0, 0)` if none. -/
def lastWindowLocation (ops : List Op) : Int × Int := ops.foldl locationAfter (0, 0)

/-- The wait time most recently given to `setWaitKey`, `1` if none. -/
def lastWaitKey (ops : List Op) : Int := ops.foldl waitKeyAfter 1

/-- The member function call that queues a given command. -/
def enqueueOp : ICvImshowFn → Op
  | .SetWindowProperty p v => .setWindowProperty p v
  | .SetWindowTitle t => .setWindowTitle t
  | .ResizeWindowWH w h => .resizeWindow w h
  | .ResizeWindowSz sz => .resizeWindowSz sz
  | .MoveWindow x y => .moveWindow x y

/-! ## Concrete inputs -/

/-- A one-pixel frame. -/
def frameA : Mat := ⟨[1]⟩

/-- Another one-pixel frame, different from `frameA`. -/
def frameB : Mat := ⟨[2]⟩

/-- The operations that lead to `shownW`. -/
def shownWOps : List Op := [.imshow frameA, .workerWake]

/-- Window `"W"` after `frameA` has been shown: realized, visible, nothing pending. -/
def shownW : State :=
  { init "W" with
    m_isWindowDistroyed := false
    pc := WorkerPc.atLoopHead
    trace := [.namedWindow "W" WINDOW_NORMAL, .moveWindow "W" 0 0, .imshow "W" frameA,
      .waitKey 1] }

/-- Two queued commands used as a concrete input. -/
def twoTitles : List ICvImshowFn := [.SetWindowTitle "t1", .SetWindowTitle "t2"]

/-- The operations that lead to `titleQueuedW`. -/
def titleQueuedWOps : List Op := [.setWindowTitle "t"]

/-- Window `"W"` right after construction with one `setWindowTitle("t")` queued:
no surface has been realized. -/
def titleQueuedW : State :=
  { init "W" with m_pImshowFnBuffer := [.SetWindowTitle "t"] }

/-- The operations that lead to `hiddenW`. -/
def hiddenWOps : List Op := [.imshow frameA, .workerWake, .setDisplay false, .workerWake]

/-- Window `"W"` after `frameA` was shown and the window was then hidden and
destroyed by the worker: nothing pending, no surface, visibility off. -/
def hiddenW : State :=
  { init "W" with
    m_display := false
    pc := WorkerPc.waiting
    trace := [.namedWindow "W" WINDOW_NORMAL, .moveWindow "W" 0 0, .imshow "W" frameA,
      .waitKey 1, .destroyWindow "W"] }

/-- The operations that lead to `placedW`. -/
def placedWOps : List Op :=
  [.setWindowLocation 300 300, .setWindowFlags 1, .setWaitKey 5, .imshow frameA]

/-- Window `"W"` with position, flags and wait time set and `frameA` pending
before any surface was realized. -/
def placedW : State :=
  { init "W" with
    m_x := 300
    m_y := 300
    m_windowFlags := 1
    m_waitKey := 5
    m_newImg := frameA
    m_isNewImg := true }

/-- The operations that lead to `idleW`. -/
def idleWOps : List Op := [.imshow frameA, .workerWake, .workerWake]

/-- Window `"W"` after `frameA` has been shown and the worker has found nothing
more to do: realized, visible, the worker inside `wait`. -/
def idleW : State :=
  { shownW with pc := WorkerPc.waiting }

/-! ## Basic lemmas -/

theorem drainBuffer_eq (buf : List ICvImshowFn) (s : State) :
    drainBuffer buf s =
      { s with trace := s.trace ++ buf.map (fun f => f.impl s.m_windowName)
               m_pImshowFnBuffer := [] } := by
  induction buf generalizing s with
  | nil => simp [drainBuffer]
  | cons f rest ih => simp [drainBuffer, ih, State.call]

theorem hideCheck_eq (s : State) (hl : s.windowMtxLocked = false) :
    hideCheck s = some
      { s with trace := s.trace ++ hideCalls s
               m_isWindowDistroyed := !s.m_display || s.m_isWindowDistroyed } := by
  obtain ⟨name, alive, destroyed, img, display, isNew, wk, flags, x, y, buf, locked, pc, tr⟩ := s
  simp only at hl
  subst hl
  cases display <;> cases destroyed <;>
    simp [hideCheck, lockWindowMtx, unlockWindowMtx, State.call, hideCalls, Bind.bind,
      Option.bind, Pure.pure]

theorem frameStep_eq (s : State) (hl : s.windowMtxLocked = false) :
    frameStep s = some
      { s with trace := s.trace ++ frameCalls s
               m_isWindowDistroyed :=
                 if s.m_display && s.m_isNewImg && !s.m_newImg.empty then false
                 else s.m_isWindowDistroyed
               m_isNewImg := s.m_isNewImg && !s.m_display
               m_newImg := if s.m_display && s.m_isNewImg then Mat.default else s.m_newImg } := by
  obtain ⟨name, alive, destroyed, img, display, isNew, wk, flags, x, y, buf, locked, pc, tr⟩ := s
  simp only at hl
  subst hl
  cases hemp : img.empty <;> cases display <;> cases isNew <;> cases destroyed <;>
    simp [frameStep, lockWindowMtx, unlockWindowMtx, State.call, frameCalls, Bind.bind,
      Option.bind, Pure.pure, hemp]

theorem workerWake_eq (s : State) (h : Inv s) : workerWake s = some (wakeResult s) := by
  obtain ⟨ha, hl, hp⟩ := h
  have hw : waitThenBody s = some (wakeResult s) := by
    unfold waitThenBody waitPredicate
    rw [hideCheck_eq s hl]
    simp only [Bind.bind, Option.bind, Pure.pure, ha, Bool.not_true, Bool.false_or]
    by_cases hready : ((s.m_isNewImg && s.m_display) ||
        decide (s.m_pImshowFnBuffer.length > 0)) = true
    · rw [if_pos hready]
      unfold loopBody
      simp only [ha, Bool.not_true, Bool.false_eq_true, if_false, Bind.bind, Option.bind]
      rw [frameStep_eq]
      · simp only [Pure.pure, drain, drainBuffer_eq]
        obtain ⟨name, alive, destroyed, img, display, isNew, wk, flags, x, y, buf, locked, pc,
          tr⟩ := s
        cases display <;> cases isNew <;> cases destroyed <;> cases buf <;>
          simp_all [wakeResult, wakeCalls, hideCalls, frameCalls, drainCalls]
      · exact hl
    · rw [if_neg hready]
      obtain ⟨name, alive, destroyed, img, display, isNew, wk, flags, x, y, buf, locked, pc,
        tr⟩ := s
      cases display <;> cases isNew <;> cases destroyed <;> cases buf <;>
        simp_all [wakeResult, wakeCalls, hideCalls, frameCalls, drainCalls]
  unfold workerWake
  cases hpc : s.pc with
  | exited => exact absurd hpc hp
  | atLoopHead => simp [ha, hw]
  | waiting => simp [hw]

theorem emplaceBack_eq (f : ICvImshowFn) (s : State) (hl : s.windowMtxLocked = false) :
    emplaceBack f s = some { s with m_pImshowFnBuffer := s.m_pImshowFnBuffer ++ [f] } := by
  obtain ⟨name, alive, destroyed, img, display, isNew, wk, flags, x, y, buf, locked, pc, tr⟩ := s
  simp only at hl
  subst hl
  simp [emplaceBack, lockWindowMtx, unlockWindowMtx, Bind.bind, Option.bind, Pure.pure]

theorem setWindowName_eq (n : String) (s : State) (hl : s.windowMtxLocked = false) :
    setWindowName n s = some
      { s with trace := s.trace ++ stepCalls (.setWindowName n) s
               m_isWindowDistroyed := true
               m_windowName := n } := by
  obtain ⟨name, alive, destroyed, img, display, isNew, wk, flags, x, y, buf, locked, pc, tr⟩ := s
  simp only at hl
  subst hl
  cases destroyed <;>
    simp [setWindowName, lockWindowMtx, unlockWindowMtx, State.call, stepCalls, Bind.bind,
      Option.bind, Pure.pure]

theorem setWindowLocation_noSurface (x y : Int) (s : State) (hl : s.windowMtxLocked = false)
    (hd : s.m_isWindowDistroyed = true) :
    setWindowLocation x y s = some { s with m_x := x, m_y := y } := by
  obtain ⟨name, alive, destroyed, img, display, isNew, wk, flags, x0, y0, buf, locked, pc, tr⟩ := s
  simp only at hl hd
  subst hl hd
  simp [setWindowLocation, lockWindowMtx, unlockWindowMtx, Bind.bind, Option.bind, Pure.pure]

theorem setWindowLocation_realized (x y : Int) (s : State)
    (hd : s.m_isWindowDistroyed = false) : setWindowLocation x y s = none := by
  obtain ⟨name, alive, destroyed, img, display, isNew, wk, flags, x0, y0, buf, locked, pc, tr⟩ := s
  simp only at hd
  subst hd
  cases locked <;>
    simp [setWindowLocation, moveWindow, emplaceBack, lockWindowMtx, unlockWindowMtx, Bind.bind,
      Option.bind, Pure.pure]

theorem step_eq (op : Op) (s : State) (h : Inv s) :
    step op s = if stepEnabled op s then some (stepResult op s) else none := by
  obtain ⟨ha, hl, hp⟩ := h
  cases op with
  | workerWake => simp [step, workerWake_eq s ⟨ha, hl, hp⟩, stepEnabled, stepResult]
  | setWindowLocation x y =>
      cases hd : s.m_isWindowDistroyed with
      | false => simp [step, setWindowLocation_realized x y s hd, stepEnabled, hd]
      | true => simp [step, setWindowLocation_noSurface x y s hl hd, stepEnabled, hd, stepResult]
  | setWindowName n => simp [step, setWindowName_eq n s hl, stepEnabled, stepResult]
  | imshow m => simp [step, imshow, stepEnabled, stepResult]
  | setDisplay d => simp [step, setDisplay, stepEnabled, stepResult]
  | setWaitKey w => simp [step, setWaitKey, stepEnabled, stepResult]
  | setWindowFlags f => simp [step, setWindowFlags, stepEnabled, stepResult]
  | setWindowProperty p v =>
      simp [step, setWindowProperty, emplaceBack_eq _ s hl, stepEnabled, stepResult]
  | setWindowTitle title =>
      simp [step, setWindowTitle, emplaceBack_eq _ s hl, stepEnabled, stepResult]
  | resizeWindow w hgt =>
      simp [step, resizeWindow, emplaceBack_eq _ s hl, stepEnabled, stepResult]
  | resizeWindowSz sz =>
      simp [step, resizeWindowSz, emplaceBack_eq _ s hl, stepEnabled, stepResult]
  | moveWindow x y =>
      simp [step, moveWindow, emplaceBack_eq _ s hl, stepEnabled, stepResult]

theorem step_some (op : Op) (s t : State) (h : Inv s) (hst : step op s = some t) :
    t = stepResult op s := by
  rw [step_eq op s h] at hst
  split at hst
  · exact (Option.some.inj hst).symm
  · cases hst

theorem wakeResult_inv (s : State) (h : Inv s) : Inv (wakeResult s) := by
  obtain ⟨ha, hl, hp⟩ := h
  refine ⟨ha, hl, ?_⟩
  simp only [wakeResult]
  split <;> simp

theorem stepResult_inv (op : Op) (s : State) (h : Inv s) : Inv (stepResult op s) := by
  cases op
  case workerWake => exact wakeResult_inv s h
  all_goals exact ⟨h.alive, h.unlocked, h.running⟩

theorem stepResult_trace (op : Op) (s : State) :
    (stepResult op s).trace = s.trace ++ stepCalls op s := by
  cases op <;> simp [stepResult, stepCalls, wakeResult]

theorem init_inv (windowName : String) : Inv (init windowName) :=
  ⟨rfl, rfl, by simp [init]⟩

theorem run_inv (ops : List Op) (s t : State) (h : Inv s) (hrun : run ops s = some t) :
    Inv t ∧ t.trace = s.trace ++ runCalls ops s := by
  induction ops generalizing s with
  | nil =>
      simp only [run, Option.some.injEq] at hrun
      subst hrun
      exact ⟨h, by simp [runCalls]⟩
  | cons op ops ih =>
      simp only [run] at hrun
      cases hst : step op s with
      | none => simp [hst] at hrun
      | some u =>
          simp only [hst, Option.bind] at hrun
          have hu := step_some op s u h hst
          subst hu
          obtain ⟨ht, htr2⟩ := ih _ (stepResult_inv op s h) hrun
          refine ⟨ht, ?_⟩
          simp [runCalls, hst, htr2, stepResult_trace, List.append_assoc]

theorem Reachable.inv {s : State} (h : Reachable s) : Inv s := by
  obtain ⟨n, ops, hrun⟩ := h
  exact (run_inv ops _ s (init_inv n) hrun).1

/-! ## Renders and realizations in the calls of a step -/

theorem renders_append (xs ys : List SurfaceCall) :
    renders (xs ++ ys) = renders xs ++ renders ys := by
  induction xs with
  | nil => rfl
  | cons c cs ih => cases c <;> simp [renders, ih]

theorem realizations_append (xs ys : List SurfaceCall) :
    realizations (xs ++ ys) = realizations xs ++ realizations ys := by
  induction xs with
  | nil => rfl
  | cons c cs ih => cases c <;> simp [realizations, ih]

theorem renders_map_impl (buf : List ICvImshowFn) (n : String) :
    renders (buf.map (fun f => f.impl n)) = [] := by
  induction buf with
  | nil => rfl
  | cons f rest ih =>
      rw [List.map_cons]
      cases f <;> exact ih

theorem realizations_map_impl (buf : List ICvImshowFn) (n : String) :
    realizations (buf.map (fun f => f.impl n)) = [] := by
  induction buf with
  | nil => rfl
  | cons f rest ih =>
      rw [List.map_cons]
      cases f <;> exact ih

theorem renders_wakeCalls (s : State) :
    renders (wakeCalls s) =
      if s.m_display && s.m_isNewImg && !s.m_newImg.empty then [(s.m_windowName, s.m_newImg)]
      else [] := by
  simp only [wakeCalls, renders_append, drainCalls, renders_map_impl, List.append_nil]
  have h1 : renders (hideCalls s) = [] := by
    unfold hideCalls
    split <;> rfl
  rw [h1, List.nil_append]
  unfold frameCalls
  split
  · split <;> rfl
  · rfl

theorem realizations_wakeCalls (s : State) :
    realizations (wakeCalls s) =
      if s.m_display && s.m_isNewImg && !s.m_newImg.empty && s.m_isWindowDistroyed then
        [(s.m_windowName, s.m_windowFlags)]
      else [] := by
  simp only [wakeCalls, realizations_append, drainCalls, realizations_map_impl, List.append_nil]
  have h1 : realizations (hideCalls s) = [] := by
    unfold hideCalls
    split <;> rfl
  rw [h1, List.nil_append]
  unfold frameCalls
  cases s.m_display <;> cases s.m_isNewImg <;> cases s.m_newImg.empty <;>
    cases s.m_isWindowDistroyed <;> rfl

/-- Without a pending frame and without a new `imshow`, no step renders or
realizes, and no frame becomes pending. -/
theorem run_noFrame (ops : List Op) (s t : State) (h : Inv s) (hn : s.m_isNewImg = false)
    (hops : ∀ m, Op.imshow m ∉ ops) (hrun : run ops s = some t) :
    t.m_isNewImg = false ∧ renders (runCalls ops s) = [] ∧ realizations (runCalls ops s) = [] := by
  induction ops generalizing s with
  | nil =>
      simp only [run, Option.some.injEq] at hrun
      subst hrun
      exact ⟨hn, rfl, rfl⟩
  | cons op ops ih =>
      simp only [run] at hrun
      cases hst : step op s with
      | none => simp [hst] at hrun
      | some u =>
          simp only [hst, Option.bind] at hrun
          have hu := step_some op s u h hst
          subst hu
          have hops2 : ∀ m, Op.imshow m ∉ ops := fun m hm => hops m (List.mem_cons_of_mem _ hm)
          have hop : ∀ m, op ≠ Op.imshow m := fun m hm =>
            hops m (by rw [← hm]; exact List.mem_cons_self _ _)
          have hn2 : (stepResult op s).m_isNewImg = false := by
            cases op <;> simp_all [stepResult, wakeResult]
          have hc : renders (stepCalls op s) = [] ∧ realizations (stepCalls op s) = [] := by
            cases op <;>
              simp [stepCalls, renders, realizations, renders_wakeCalls, realizations_wakeCalls,
                hn]
            split <;> simp [renders, realizations]
          obtain ⟨h1, h2, h3⟩ := ih _ (stepResult_inv op s h) hn2 hops2 hrun
          refine ⟨h1, ?_, ?_⟩
          · simp [runCalls, hst, renders_append, hc.1, h2]
          · simp [runCalls, hst, realizations_append, hc.2, h3]

theorem shownW_reachable : Reachable shownW := ⟨"W", shownWOps, by decide⟩

/-! ## Frame delivery -/

/-- C1 (last write wins).  From a reachable state with the window visible,
`imshow(A)` followed by `imshow(B)` with no worker step in between (`B` not
empty) makes the next worker wake issue exactly one render call, of frame `B`
under the current window name; the pending flag is clear afterwards, and no
later sequence of steps without a new `imshow` renders anything, so `A` is never
rendered. -/
theorem imshow_last_write_wins (s : State) (A B : Mat) (hs : Reachable s)
    (hvis : s.m_display = true) (hB : B.empty = false) :
    ∃ s1 s2 s3, imshow A s = some s1 ∧ imshow B s1 = some s2 ∧ workerWake s2 = some s3 ∧
      (∃ calls, s3.trace = s.trace ++ calls ∧ renders calls = [(s.m_windowName, B)]) ∧
      s3.m_isNewImg = false ∧
      ∀ ops t, (∀ m, Op.imshow m ∉ ops) → run ops s3 = some t →
        ∃ later, t.trace = s3.trace ++ later ∧ renders later = [] := by
  have hinv := hs.inv
  have hinv2 : Inv (stepResult (.imshow B) (stepResult (.imshow A) s)) :=
    stepResult_inv _ _ (stepResult_inv _ _ hinv)
  have hBc : B.clone.empty = false := hB
  refine ⟨stepResult (.imshow A) s, stepResult (.imshow B) (stepResult (.imshow A) s),
    wakeResult (stepResult (.imshow B) (stepResult (.imshow A) s)), rfl, rfl,
    workerWake_eq _ hinv2, ⟨wakeCalls (stepResult (.imshow B) (stepResult (.imshow A) s)), rfl, ?_⟩,
    ?_, ?_⟩
  · rw [renders_wakeCalls]
    simp [stepResult, hvis, hBc]
    rfl
  · simp [wakeResult, stepResult, hvis]
  · intro ops t hops hrun
    have hn : (wakeResult (stepResult (.imshow B) (stepResult (.imshow A) s))).m_isNewImg
        = false := by
      simp [wakeResult, stepResult, hvis]
    obtain ⟨-, htr⟩ := run_inv ops _ t (wakeResult_inv _ hinv2) hrun
    exact ⟨_, htr, (run_noFrame ops _ t (wakeResult_inv _ hinv2) hn hops hrun).2.1⟩

theorem imshow_last_write_wins_witness :
    Reachable shownW ∧ shownW.m_display = true ∧ frameB.empty = false ∧
    ∃ s1 s2 s3, imshow frameA shownW = some s1 ∧ imshow frameB s1 = some s2 ∧
      workerWake s2 = some s3 ∧
      (∃ calls, s3.trace = shownW.trace ++ calls ∧ renders calls = [("W", frameB)]) ∧
      s3.m_isNewImg = false ∧
      ∀ ops t, (∀ m, Op.imshow m ∉ ops) → run ops s3 = some t →
        ∃ later, t.trace = s3.trace ++ later ∧ renders later = [] :=
  ⟨shownW_reachable, rfl, rfl,
    imshow_last_write_wins shownW frameA frameB shownW_reachable rfl rfl⟩

theorem titleQueuedW_reachable : Reachable titleQueuedW := ⟨"W", titleQueuedWOps, by decide⟩

/-! ## The command queue -/

theorem run_enqueue (cmds : List ICvImshowFn) (s : State) (h : Inv s) :
    run (cmds.map enqueueOp) s =
      some { s with m_pImshowFnBuffer := s.m_pImshowFnBuffer ++ cmds } := by
  induction cmds generalizing s with
  | nil => simp [run]
  | cons f rest ih =>
      have hst : step (enqueueOp f) s =
          some { s with m_pImshowFnBuffer := s.m_pImshowFnBuffer ++ [f] } := by
        rw [step_eq _ s h]
        cases f <;> rfl
      simp only [List.map_cons, run, hst, Option.bind]
      rw [ih]
      · simp [List.append_assoc]
      · exact ⟨h.alive, h.unlocked, h.running⟩

/-- C2 (command ordering).  From a reachable state with a surface realized,
after any list of commands has been queued through the queueing member
functions, the next worker wake empties the queue and its calls are: the
destroy of a hidden window or the render of a pending frame, if any, and then
every queued command applied to the current window name, older queue contents
first and the new commands last, each once and in the order they were queued. -/
theorem commands_applied_in_order (s : State) (cmds : List ICvImshowFn) (hs : Reachable s)
    (hreal : s.m_isWindowDistroyed = false) :
    ∃ s1 s2, run (cmds.map enqueueOp) s = some s1 ∧ workerWake s1 = some s2 ∧
      s2.m_pImshowFnBuffer = [] ∧
      s2.trace = s.trace ++
        (if s.m_display then
          (if s.m_isNewImg && !s.m_newImg.empty then
            [.imshow s.m_windowName s.m_newImg, .waitKey s.m_waitKey] else [])
         else [.destroyWindow s.m_windowName]) ++
        s.m_pImshowFnBuffer.map (fun f => f.impl s.m_windowName) ++
        cmds.map (fun f => f.impl s.m_windowName) := by
  have hinv := hs.inv
  have hinv1 : Inv { s with m_pImshowFnBuffer := s.m_pImshowFnBuffer ++ cmds } :=
    ⟨hinv.alive, hinv.unlocked, hinv.running⟩
  refine ⟨_, _, run_enqueue cmds s hinv, workerWake_eq _ hinv1, rfl, ?_⟩
  cases hd : s.m_display <;> cases hn : s.m_isNewImg <;> cases he : s.m_newImg.empty <;>
    simp [wakeResult, wakeCalls, hideCalls, frameCalls, drainCalls, hreal, hd, hn, he]

theorem commands_applied_in_order_witness :
    Reachable shownW ∧ shownW.m_isWindowDistroyed = false ∧
    ∃ s1 s2, run (twoTitles.map enqueueOp) shownW = some s1 ∧ workerWake s1 = some s2 ∧
      s2.m_pImshowFnBuffer = [] ∧
      s2.trace = shownW.trace ++
        (if shownW.m_display then
          (if shownW.m_isNewImg && !shownW.m_newImg.empty then
            [.imshow shownW.m_windowName shownW.m_newImg, .waitKey shownW.m_waitKey] else [])
         else [.destroyWindow shownW.m_windowName]) ++
        shownW.m_pImshowFnBuffer.map (fun f => f.impl shownW.m_windowName) ++
        twoTitles.map (fun f => f.impl shownW.m_windowName) :=
  ⟨shownW_reachable, rfl, commands_applied_in_order shownW twoTitles shownW_reachable rfl⟩

/-- C8, as stated, fails: on window `"W"` with `setWindowTitle("t")` queued
before any frame was shown, the lifecycle state after the frame step is
NoSurface, yet the worker wake issues `cv::setWindowTitle("W", "t")` for the
queued command. -/
theorem commands_not_dropped_without_surface :
    run titleQueuedWOps (init "W") = some titleQueuedW ∧
    ((hideCheck titleQueuedW).bind frameStep).map State.m_isWindowDistroyed = some true ∧
    (workerWake titleQueuedW).map (fun s => s.trace.drop titleQueuedW.trace.length) =
      some [.setWindowTitle "W" "t"] ∧
    (workerWake titleQueuedW).map State.m_pImshowFnBuffer = some [] := by
  decide

/-- C8, amended.  At every worker wake of a reachable state at which the
lifecycle state is NoSurface after the frame step, every command in the queue
is removed and applied to the current window name, in queue order, right after
the calls of the frame step; the queue is empty afterwards and the lifecycle
state is still NoSurface. -/
theorem commands_applied_without_surface (s s1 s2 : State) (hs : Reachable s)
    (h1 : hideCheck s = some s1) (h2 : frameStep s1 = some s2)
    (hno : s2.m_isWindowDistroyed = true) :
    ∃ s3, workerWake s = some s3 ∧ s3.m_pImshowFnBuffer = [] ∧
      s3.m_isWindowDistroyed = true ∧
      s3.trace = s2.trace ++ s.m_pImshowFnBuffer.map (fun f => f.impl s.m_windowName) := by
  have hinv := hs.inv
  rw [hideCheck_eq s hinv.unlocked] at h1
  cases h1
  rw [frameStep_eq] at h2
  · cases h2
    refine ⟨_, workerWake_eq s hinv, rfl, ?_, ?_⟩
    · revert hno
      cases hd : s.m_display <;> cases hn : s.m_isNewImg <;> cases he : s.m_newImg.empty <;>
        simp [wakeResult, hd, hn, he]
    · revert hno
      cases hd : s.m_display <;> cases hn : s.m_isNewImg <;> cases he : s.m_newImg.empty <;>
        cases hw : s.m_isWindowDistroyed <;>
        simp [wakeResult, wakeCalls, hideCalls, frameCalls, drainCalls, hd, hn, he, hw]
  · exact hinv.unlocked

theorem commands_applied_without_surface_witness :
    Reachable titleQueuedW ∧
    hideCheck titleQueuedW = some titleQueuedW ∧ frameStep titleQueuedW = some titleQueuedW ∧
    titleQueuedW.m_isWindowDistroyed = true ∧
    ∃ s3, workerWake titleQueuedW = some s3 ∧ s3.m_pImshowFnBuffer = [] ∧
      s3.m_isWindowDistroyed = true ∧
      s3.trace = titleQueuedW.trace ++
        titleQueuedW.m_pImshowFnBuffer.map (fun f => f.impl titleQueuedW.m_windowName) :=
  ⟨titleQueuedW_reachable, by decide, by decide, rfl,
    commands_applied_without_surface titleQueuedW titleQueuedW titleQueuedW
      titleQueuedW_reachable (by decide) (by decide) rfl⟩

theorem hiddenW_reachable : Reachable hiddenW := ⟨"W", hiddenWOps, by decide⟩

/-! ## Visibility -/

theorem run_append (xs ys : List Op) (s : State) :
    run (xs ++ ys) s = (run xs s).bind (run ys) := by
  induction xs generalizing s with
  | nil => rfl
  | cons op ops ih =>
      simp only [List.cons_append, run]
      cases step op s with
      | none => rfl
      | some u => simpa using ih u

/-- Worker wakes while the window is hidden leave the frame slot untouched. -/
theorem hidden_wakes (n : Nat) (s : State) (h : Inv s) (hd : s.m_display = false) :
    ∃ t, run (List.replicate n Op.workerWake) s = some t ∧ Inv t ∧ t.m_display = false ∧
      t.m_isNewImg = s.m_isNewImg ∧ t.m_newImg = s.m_newImg ∧
      t.m_windowName = s.m_windowName := by
  induction n generalizing s with
  | zero => exact ⟨s, rfl, h, hd, rfl, rfl, rfl⟩
  | succ n ih =>
      obtain ⟨t, ht, hti, htd, htn, htm, htw⟩ := ih (wakeResult s) (wakeResult_inv s h) hd
      refine ⟨t, ?_, hti, htd, ?_, ?_, ?_⟩
      · simp only [List.replicate_succ, run, step, workerWake_eq s h, Option.bind]
        exact ht
      · rw [htn]; simp [wakeResult, hd]
      · rw [htm]; simp [wakeResult, hd]
      · rw [htw]; rfl

/-- Worker wakes while the window is visible and no frame is pending leave the
lifecycle state untouched. -/
theorem idle_wakes (n : Nat) (s : State) (h : Inv s) (hd : s.m_display = true)
    (hn : s.m_isNewImg = false) :
    ∃ t, run (List.replicate n Op.workerWake) s = some t ∧
      t.m_isWindowDistroyed = s.m_isWindowDistroyed := by
  induction n generalizing s with
  | zero => exact ⟨s, rfl, rfl⟩
  | succ n ih =>
      obtain ⟨t, ht, htd⟩ := ih (wakeResult s) (wakeResult_inv s h) hd
        (by simp [wakeResult, hn])
      refine ⟨t, ?_, ?_⟩
      · simp only [List.replicate_succ, run, step, workerWake_eq s h, Option.bind]
        exact ht
      · rw [htd]; simp [wakeResult, hd, hn]

/-- A worker wake renders only when the window is visible and a frame is
pending at that wake. -/
theorem wake_render_needs_frame (t u : State) (calls : List SurfaceCall) (h : Inv t)
    (hw : workerWake t = some u) (htr : u.trace = t.trace ++ calls) (hr : renders calls ≠ []) :
    t.m_display = true ∧ t.m_isNewImg = true := by
  rw [workerWake_eq t h] at hw
  cases hw
  have hc : calls = wakeCalls t := (List.append_cancel_left htr).symm
  subst hc
  rw [renders_wakeCalls] at hr
  revert hr
  cases t.m_display <;> cases t.m_isNewImg <;> simp

/-- C3 (hide destroys, does not render).  From a reachable state with a surface
realized, `setDisplay(false)` issues no call; the worker wake that follows issues
a destroy call for the current window name, then only the queued commands, sets
the lifecycle state to NoSurface and renders nothing; and any later worker wake,
after any further steps, that renders something starts with the visibility flag
true and a frame pending. -/
theorem hide_destroys_without_render (s : State) (hs : Reachable s)
    (hreal : s.m_isWindowDistroyed = false) :
    ∃ s1 s2, setDisplay false s = some s1 ∧ s1.trace = s.trace ∧ workerWake s1 = some s2 ∧
      s2.m_isWindowDistroyed = true ∧
      (∃ calls, s2.trace = s.trace ++ SurfaceCall.destroyWindow s.m_windowName :: calls ∧
        calls = s.m_pImshowFnBuffer.map (fun f => f.impl s.m_windowName) ∧
        renders (SurfaceCall.destroyWindow s.m_windowName :: calls) = []) ∧
      ∀ ops t u later, run ops s2 = some t → workerWake t = some u →
        u.trace = t.trace ++ later → renders later ≠ [] →
        t.m_display = true ∧ t.m_isNewImg = true := by
  have hinv := hs.inv
  have hinv1 : Inv (stepResult (.setDisplay false) s) := stepResult_inv _ s hinv
  refine ⟨_, _, rfl, rfl, workerWake_eq _ hinv1, ?_, ⟨_, ?_, rfl, ?_⟩, ?_⟩
  · simp [wakeResult, stepResult]
  · simp [wakeResult, stepResult, wakeCalls, hideCalls, frameCalls, drainCalls, hreal]
  · simp [renders, renders_map_impl]
  · intro ops t u later hrun hw htr hr
    exact wake_render_needs_frame t u later
      (run_inv ops _ t (wakeResult_inv _ hinv1) hrun).1 hw htr hr

theorem hide_destroys_without_render_witness :
    Reachable shownW ∧ shownW.m_isWindowDistroyed = false ∧
    ∃ s1 s2, setDisplay false shownW = some s1 ∧ s1.trace = shownW.trace ∧
      workerWake s1 = some s2 ∧ s2.m_isWindowDistroyed = true ∧
      (∃ calls, s2.trace = shownW.trace ++ SurfaceCall.destroyWindow "W" :: calls ∧
        calls = shownW.m_pImshowFnBuffer.map (fun f => f.impl "W") ∧
        renders (SurfaceCall.destroyWindow "W" :: calls) = []) ∧
      ∀ ops t u later, run ops s2 = some t → workerWake t = some u →
        u.trace = t.trace ++ later → renders later ≠ [] →
        t.m_display = true ∧ t.m_isNewImg = true :=
  ⟨shownW_reachable, rfl, hide_destroys_without_render shownW shownW_reachable rfl⟩

/-- C4 (pending across toggle).  From a reachable state and for a non-empty
frame `X`, after `setDisplay(false)`, any number of worker wakes, `imshow(X)` and
again any number of worker wakes, the pending flag is set; it is still set after
`setDisplay(true)`; and the next worker wake issues exactly one render call, of
frame `X` under the current window name. -/
theorem pending_frame_survives_toggle (s : State) (X : Mat) (n1 n2 : Nat) (hs : Reachable s)
    (hX : X.empty = false) :
    ∃ s1 s2 s3,
      run (Op.setDisplay false :: List.replicate n1 Op.workerWake ++
        Op.imshow X :: List.replicate n2 Op.workerWake) s = some s1 ∧
      s1.m_isNewImg = true ∧ setDisplay true s1 = some s2 ∧ s2.m_isNewImg = true ∧
      workerWake s2 = some s3 ∧
      ∃ calls, s3.trace = s2.trace ++ calls ∧ renders calls = [(s.m_windowName, X)] := by
  have hinv := hs.inv
  obtain ⟨a, ha, hai, had, -, -, haw⟩ :=
    hidden_wakes n1 (stepResult (.setDisplay false) s) (stepResult_inv _ s hinv) rfl
  obtain ⟨b, hb, hbi, hbd, hbn, hbm, hbw⟩ :=
    hidden_wakes n2 (stepResult (.imshow X) a) (stepResult_inv _ a hai) had
  have hinv2 : Inv (stepResult (.setDisplay true) b) := stepResult_inv _ b hbi
  have hname : b.m_windowName = s.m_windowName := by rw [hbw]; exact haw
  have hXc : X.clone = X := rfl
  refine ⟨b, stepResult (.setDisplay true) b, _, ?_, ?_, rfl, ?_, workerWake_eq _ hinv2,
    ⟨_, rfl, ?_⟩⟩
  · have h0 : step (Op.setDisplay false) s = some (stepResult (.setDisplay false) s) := rfl
    have h1 : step (Op.imshow X) a = some (stepResult (.imshow X) a) := rfl
    show (step (Op.setDisplay false) s).bind (run (List.replicate n1 Op.workerWake ++
      Op.imshow X :: List.replicate n2 Op.workerWake)) = some b
    rw [h0, Option.some_bind, run_append, ha, Option.some_bind, run, h1, Option.some_bind]
    exact hb
  · rw [hbn]; rfl
  · show b.m_isNewImg = true
    rw [hbn]; rfl
  · rw [renders_wakeCalls]
    have e1 : (stepResult (.setDisplay true) b).m_isNewImg = true := by
      show b.m_isNewImg = true
      rw [hbn]; rfl
    have e2 : (stepResult (.setDisplay true) b).m_newImg = X := by
      show b.m_newImg = X
      rw [hbm]; rfl
    have e3 : (stepResult (.setDisplay true) b).m_display = true := rfl
    have e4 : (stepResult (.setDisplay true) b).m_windowName = s.m_windowName := hname
    simp [e1, e2, e3, e4, hX]

theorem pending_frame_survives_toggle_witness :
    Reachable shownW ∧ frameB.empty = false ∧
    ∃ s1 s2 s3,
      run (Op.setDisplay false :: List.replicate 2 Op.workerWake ++
        Op.imshow frameB :: List.replicate 1 Op.workerWake) shownW = some s1 ∧
      s1.m_isNewImg = true ∧ setDisplay true s1 = some s2 ∧ s2.m_isNewImg = true ∧
      workerWake s2 = some s3 ∧
      ∃ calls, s3.trace = s2.trace ++ calls ∧ renders calls = [("W", frameB)] :=
  ⟨shownW_reachable, rfl,
    pending_frame_survives_toggle shownW frameB 2 1 shownW_reachable rfl⟩

/-- C5 (no replay on a bare visibility toggle).  From a reachable state with no
frame pending, `setDisplay(true)` followed by any number of worker wakes issues
no render call and no realization call, and leaves the lifecycle state as it
was. -/
theorem no_replay_on_bare_toggle (s : State) (n : Nat) (hs : Reachable s)
    (hn : s.m_isNewImg = false) :
    ∃ s1 t, setDisplay true s = some s1 ∧
      run (List.replicate n Op.workerWake) s1 = some t ∧
      t.m_isWindowDistroyed = s.m_isWindowDistroyed ∧
      ∃ calls, t.trace = s.trace ++ calls ∧ renders calls = [] ∧ realizations calls = [] := by
  have hinv1 : Inv (stepResult (.setDisplay true) s) := stepResult_inv _ s hs.inv
  obtain ⟨t, ht, htd⟩ := idle_wakes n (stepResult (.setDisplay true) s) hinv1 rfl hn
  have hops : ∀ m, Op.imshow m ∉ List.replicate n Op.workerWake := by
    intro m hm
    have := List.eq_of_mem_replicate hm
    cases this
  obtain ⟨-, hr, hz⟩ := run_noFrame _ _ t hinv1 hn hops ht
  exact ⟨_, t, rfl, ht, htd, _, (run_inv _ _ t hinv1 ht).2, hr, hz⟩

theorem no_replay_on_bare_toggle_witness :
    Reachable hiddenW ∧ hiddenW.m_isNewImg = false ∧
    ∃ s1 t, setDisplay true hiddenW = some s1 ∧
      run (List.replicate 3 Op.workerWake) s1 = some t ∧
      t.m_isWindowDistroyed = hiddenW.m_isWindowDistroyed ∧
      ∃ calls, t.trace = hiddenW.trace ++ calls ∧ renders calls = [] ∧
        realizations calls = [] :=
  ⟨hiddenW_reachable, rfl, no_replay_on_bare_toggle hiddenW 3 hiddenW_reachable rfl⟩

/-! ## Teardown -/

theorem join_exited (notified : Bool) (fuel : Nat) (u : State)
    (hu : u.pc = WorkerPc.exited) : join notified fuel u = some u := by
  cases fuel <;> simp [join, hu]

/-- The state a destructor that completes leaves behind. -/
theorem destructor_eq (notified : Bool) (fuel : Nat) (s : State) (h : Inv s) :
    destructor notified (fuel + 1) s =
      if s.pc = WorkerPc.waiting ∧ notified = false then none
      else some
        { s with m_isAlive := false
                 pc := WorkerPc.exited
                 m_isWindowDistroyed :=
                   if s.pc = WorkerPc.waiting then !s.m_display || s.m_isWindowDistroyed
                   else s.m_isWindowDistroyed
                 trace := s.trace ++ teardownCalls s } := by
  obtain ⟨ha, hl, hp⟩ := h
  unfold destructor
  simp only [join, Bind.bind, Pure.pure]
  rw [if_neg hp]
  cases hpc : s.pc with
  | exited => exact absurd hpc hp
  | atLoopHead =>
      simp only [workerWake, hpc, Bool.not_false, if_true, Option.some_bind]
      rw [join_exited _ _ _ rfl]
      simp [State.call, teardownCalls, hpc]
  | waiting =>
      cases notified with
      | false => simp
      | true =>
          simp only [workerWake, hpc, waitThenBody, waitPredicate, Bind.bind, Pure.pure]
          rw [hideCheck_eq]
          · simp only [Option.some_bind, Bool.not_false, Bool.true_or, if_true, loopBody]
            simp only [Bool.not_true, Bool.and_false, Bool.false_eq_true, if_false,
              Option.some_bind]
            rw [join_exited _ _ _ rfl]
            simp [State.call, teardownCalls, hpc, hideCalls]
          · exact hl

theorem destructor_zero (notified : Bool) (s : State) (h : Inv s) :
    destructor notified 0 s = none := by
  unfold destructor
  simp only [join, Bind.bind, Pure.pure]
  rw [if_neg h.running]
  rfl

/-- Every destructor run that completes appends exactly `teardownCalls`. -/
theorem destructor_trace (notified : Bool) (fuel : Nat) (s u : State) (h : Inv s)
    (hd : destructor notified fuel s = some u) : u.trace = s.trace ++ teardownCalls s := by
  cases fuel with
  | zero => rw [destructor_zero notified s h] at hd; cases hd
  | succ fuel =>
      rw [destructor_eq notified fuel s h] at hd
      split at hd
      · cases hd
      · cases hd
        rfl

/-! ## Window names in the calls of a step -/

theorem target_of_impl (f : ICvImshowFn) (n : String) : (f.impl n).targetName = some n := by
  cases f <;> rfl

theorem wakeCalls_target (s : State) (c : SurfaceCall) (hc : c ∈ wakeCalls s) (n : String)
    (hn : c.targetName = some n) : n = s.m_windowName := by
  simp only [wakeCalls, List.mem_append] at hc
  rcases hc with (hc | hc) | hc
  · unfold hideCalls at hc
    split at hc
    · simp only [List.mem_singleton] at hc
      subst hc
      exact (Option.some.inj hn).symm
    · cases hc
  · unfold frameCalls at hc
    split at hc
    · simp only [List.mem_append, List.mem_cons, List.mem_singleton, List.not_mem_nil,
        or_false] at hc
      rcases hc with hc | hc | hc
      · split at hc
        · simp only [List.mem_cons, List.mem_singleton, List.not_mem_nil, or_false] at hc
          rcases hc with hc | hc <;> subst hc <;> exact (Option.some.inj hn).symm
        · cases hc
      · subst hc
        exact (Option.some.inj hn).symm
      · subst hc
        cases hn
    · cases hc
  · simp only [drainCalls, List.mem_map] at hc
    obtain ⟨f, -, rfl⟩ := hc
    rw [target_of_impl] at hn
    exact (Option.some.inj hn).symm

theorem stepCalls_target (op : Op) (s : State) (c : SurfaceCall) (hc : c ∈ stepCalls op s)
    (n : String) (hn : c.targetName = some n) : n = s.m_windowName := by
  cases op
  case workerWake => exact wakeCalls_target s c hc n hn
  case setWindowName m =>
    simp only [stepCalls] at hc
    split at hc
    · cases hc
    · simp only [List.mem_singleton] at hc
      subst hc
      exact (Option.some.inj hn).symm
  all_goals cases hc

/-- Without a rename the window name stays and every call names it. -/
theorem run_target (ops : List Op) (s t : State) (h : Inv s)
    (hops : ∀ n, Op.setWindowName n ∉ ops) (hrun : run ops s = some t) :
    t.m_windowName = s.m_windowName ∧
    ∀ c ∈ runCalls ops s, ∀ n, c.targetName = some n → n = s.m_windowName := by
  induction ops generalizing s with
  | nil =>
      simp only [run, Option.some.injEq] at hrun
      subst hrun
      exact ⟨rfl, by simp [runCalls]⟩
  | cons op ops ih =>
      simp only [run] at hrun
      cases hst : step op s with
      | none => simp [hst] at hrun
      | some u =>
          simp only [hst, Option.bind] at hrun
          have hu := step_some op s u h hst
          subst hu
          have hops2 : ∀ n, Op.setWindowName n ∉ ops :=
            fun n hn => hops n (List.mem_cons_of_mem _ hn)
          have hop : ∀ n, op ≠ Op.setWindowName n := fun n hn =>
            hops n (by rw [← hn]; exact List.mem_cons_self _ _)
          have hname : (stepResult op s).m_windowName = s.m_windowName := by
            cases op <;> first | rfl | exact absurd rfl (hop _)
          obtain ⟨h1, h2⟩ := ih _ (stepResult_inv op s h) hops2 hrun
          refine ⟨h1.trans hname, ?_⟩
          intro c hc n hn
          simp only [runCalls, hst, List.mem_append] at hc
          rcases hc with hc | hc
          · exact stepCalls_target op s c hc n hn
          · exact (h2 c hc n hn).trans hname

/-- As long as a name is not given to `setWindowName` again, no call names it. -/
theorem run_avoids (W1 : String) (ops : List Op) (s t : State) (h : Inv s)
    (hname : s.m_windowName ≠ W1) (hops : Op.setWindowName W1 ∉ ops)
    (hrun : run ops s = some t) :
    t.m_windowName ≠ W1 ∧ ∀ c ∈ runCalls ops s, c.targetName ≠ some W1 := by
  induction ops generalizing s with
  | nil =>
      simp only [run, Option.some.injEq] at hrun
      subst hrun
      exact ⟨hname, by simp [runCalls]⟩
  | cons op ops ih =>
      simp only [run] at hrun
      cases hst : step op s with
      | none => simp [hst] at hrun
      | some u =>
          simp only [hst, Option.bind] at hrun
          have hu := step_some op s u h hst
          subst hu
          have hops2 : Op.setWindowName W1 ∉ ops := fun hn => hops (List.mem_cons_of_mem _ hn)
          have hop : op ≠ Op.setWindowName W1 := fun hn =>
            hops (by rw [← hn]; exact List.mem_cons_self _ _)
          have hname2 : (stepResult op s).m_windowName ≠ W1 := by
            cases op
            case setWindowName n =>
              intro hn
              exact hop (congrArg Op.setWindowName hn)
            all_goals exact hname
          obtain ⟨h1, h2⟩ := ih _ (stepResult_inv op s h) hname2 hops2 hrun
          refine ⟨h1, ?_⟩
          intro c hc hn
          simp only [runCalls, hst, List.mem_append] at hc
          rcases hc with hc | hc
          · exact hname (stepCalls_target op s c hc W1 hn).symm
          · exact h2 c hc hn

theorem teardownCalls_target (t : State) (c : SurfaceCall) (hc : c ∈ teardownCalls t) :
    c.targetName = some t.m_windowName := by
  simp only [teardownCalls, List.mem_append, List.mem_singleton] at hc
  rcases hc with hc | hc
  · split at hc
    · unfold hideCalls at hc
      split at hc
      · simp only [List.mem_singleton] at hc
        subst hc
        rfl
      · cases hc
    · cases hc
  · subst hc
    rfl

/-- C6 (rename redirects).  From a reachable state with a surface realized
under the name `W1`, `setWindowName(W2)` with `W2` different from `W1` issues
exactly one call, the destroy of `W1`, sets the lifecycle state to NoSurface
and stores `W2`.  Over any further steps, and in the destructor run after them:
as long as there is no other rename, every call that names a window names `W2`;
and as long as `W1` is not given to `setWindowName` again, no call names `W1`.
The destructor completes, with at least one call, when its notification reaches
the worker; the same holds of the calls of every destructor run that
completes. -/
theorem rename_redirects (s : State) (W2 : String) (hs : Reachable s)
    (hreal : s.m_isWindowDistroyed = false) (hne : W2 ≠ s.m_windowName) :
    ∃ s1, setWindowName W2 s = some s1 ∧
      s1.trace = s.trace ++ [.destroyWindow s.m_windowName] ∧
      s1.m_isWindowDistroyed = true ∧ s1.m_windowName = W2 ∧
      ∀ ops t, run ops s1 = some t →
        ∃ later, t.trace = s1.trace ++ later ∧
          ((∀ n, Op.setWindowName n ∉ ops) →
            ∀ c ∈ later, ∀ n, c.targetName = some n → n = W2) ∧
          (Op.setWindowName s.m_windowName ∉ ops →
            ∀ c ∈ later, c.targetName ≠ some s.m_windowName) ∧
          (∀ fuel, ∃ u last, destructor true (fuel + 1) t = some u ∧
            u.trace = t.trace ++ last ∧ last ≠ [] ∧
            ((∀ n, Op.setWindowName n ∉ ops) → ∀ c ∈ last, c.targetName = some W2) ∧
            (Op.setWindowName s.m_windowName ∉ ops →
              ∀ c ∈ last, c.targetName ≠ some s.m_windowName)) ∧
          ∀ notified fuel u, destructor notified fuel t = some u →
            ∃ last, u.trace = t.trace ++ last ∧ last ≠ [] ∧
              ((∀ n, Op.setWindowName n ∉ ops) → ∀ c ∈ last, c.targetName = some W2) ∧
              (Op.setWindowName s.m_windowName ∉ ops →
                ∀ c ∈ last, c.targetName ≠ some s.m_windowName) := by
  have hinv := hs.inv
  have hinv1 : Inv (stepResult (.setWindowName W2) s) := stepResult_inv _ s hinv
  refine ⟨_, setWindowName_eq W2 s hinv.unlocked, ?_, rfl, rfl, ?_⟩
  · simp [stepCalls, hreal]
  · intro ops t hrun
    obtain ⟨hti, htr⟩ := run_inv ops _ t hinv1 hrun
    have hlast : teardownCalls t ≠ [] ∧
        ((∀ n, Op.setWindowName n ∉ ops) →
          ∀ c ∈ teardownCalls t, c.targetName = some W2) ∧
        (Op.setWindowName s.m_windowName ∉ ops →
          ∀ c ∈ teardownCalls t, c.targetName ≠ some s.m_windowName) := by
      refine ⟨by simp [teardownCalls], ?_, ?_⟩
      · intro hops c hc
        rw [teardownCalls_target t c hc, (run_target ops _ t hinv1 hops hrun).1]
        rfl
      · intro hops c hc hn
        rw [teardownCalls_target t c hc] at hn
        exact (run_avoids s.m_windowName ops _ t hinv1 hne hops hrun).1 (Option.some.inj hn)
    refine ⟨_, htr, ?_, ?_, ?_, ?_⟩
    · intro hops c hc n hn
      exact (run_target ops _ t hinv1 hops hrun).2 c hc n hn
    · intro hops c hc
      exact (run_avoids s.m_windowName ops _ t hinv1 hne hops hrun).2 c hc
    · intro fuel
      have hd := destructor_eq true fuel t hti
      rw [if_neg (by simp)] at hd
      exact ⟨_, teardownCalls t, hd, rfl, hlast⟩
    · intro notified fuel u hd
      exact ⟨teardownCalls t, destructor_trace notified fuel t u hti hd, hlast⟩

theorem rename_redirects_witness :
    Reachable shownW ∧ shownW.m_isWindowDistroyed = false ∧ "W2" ≠ shownW.m_windowName ∧
    ∃ s1, setWindowName "W2" shownW = some s1 ∧
      s1.trace = shownW.trace ++ [.destroyWindow shownW.m_windowName] ∧
      s1.m_isWindowDistroyed = true ∧ s1.m_windowName = "W2" ∧
      ∀ ops t, run ops s1 = some t →
        ∃ later, t.trace = s1.trace ++ later ∧
          ((∀ n, Op.setWindowName n ∉ ops) →
            ∀ c ∈ later, ∀ n, c.targetName = some n → n = "W2") ∧
          (Op.setWindowName shownW.m_windowName ∉ ops →
            ∀ c ∈ later, c.targetName ≠ some shownW.m_windowName) ∧
          (∀ fuel, ∃ u last, destructor true (fuel + 1) t = some u ∧
            u.trace = t.trace ++ last ∧ last ≠ [] ∧
            ((∀ n, Op.setWindowName n ∉ ops) → ∀ c ∈ last, c.targetName = some "W2") ∧
            (Op.setWindowName shownW.m_windowName ∉ ops →
              ∀ c ∈ last, c.targetName ≠ some shownW.m_windowName)) ∧
          ∀ notified fuel u, destructor notified fuel t = some u →
            ∃ last, u.trace = t.trace ++ last ∧ last ≠ [] ∧
              ((∀ n, Op.setWindowName n ∉ ops) → ∀ c ∈ last, c.targetName = some "W2") ∧
              (Op.setWindowName shownW.m_windowName ∉ ops →
                ∀ c ∈ last, c.targetName ≠ some shownW.m_windowName) :=
  ⟨shownW_reachable, rfl, by decide,
    rename_redirects shownW "W2" shownW_reachable rfl (by decide)⟩

/-! ## Geometry -/

/-- C7 (immediate move on `setWindowLocation`), evaluated on the code.  Window
`"W"` is realized by `imshow(frameA)` and one worker wake.  On it
`setWindowLocation(300, 300)` has no successor state: after storing the position
under `m_windowMtx` it calls the member `moveWindow`, which requests the same
mutex again and, had it obtained it, would have queued a `MoveWindow` command.
Without a surface the same call returns and only stores the position. -/
theorem setWindowLocation_blocks_when_realized :
    run shownWOps (init "W") = some shownW ∧ shownW.m_isWindowDistroyed = false ∧
    setWindowLocation 300 300 shownW = none ∧
    (lockWindowMtx shownW).bind (moveWindow 300 300) = none ∧
    moveWindow 300 300 shownW =
      some { shownW with m_pImshowFnBuffer := [.MoveWindow 300 300] } ∧
    setWindowLocation 300 300 (init "W") = some { init "W" with m_x := 300, m_y := 300 } := by
  decide

theorem run_settings (ops : List Op) (s t : State) (h : Inv s) (hrun : run ops s = some t) :
    t.m_windowFlags = ops.foldl flagsAfter s.m_windowFlags ∧
    (t.m_x, t.m_y) = ops.foldl locationAfter (s.m_x, s.m_y) ∧
    t.m_waitKey = ops.foldl waitKeyAfter s.m_waitKey := by
  induction ops generalizing s with
  | nil =>
      simp only [run, Option.some.injEq] at hrun
      subst hrun
      exact ⟨rfl, rfl, rfl⟩
  | cons op ops ih =>
      simp only [run] at hrun
      cases hst : step op s with
      | none => simp [hst] at hrun
      | some u =>
          simp only [hst, Option.bind] at hrun
          have hu := step_some op s u h hst
          subst hu
          obtain ⟨h1, h2, h3⟩ := ih _ (stepResult_inv op s h) hrun
          have e1 : (stepResult op s).m_windowFlags = flagsAfter s.m_windowFlags op := by
            cases op <;> rfl
          have e2 : ((stepResult op s).m_x, (stepResult op s).m_y) =
              locationAfter (s.m_x, s.m_y) op := by
            cases op <;> rfl
          have e3 : (stepResult op s).m_waitKey = waitKeyAfter s.m_waitKey op := by
            cases op <;> rfl
          simp only [List.foldl_cons]
          rw [← e1, ← e2, ← e3]
          exact ⟨h1, h2, h3⟩

/-- C9 (realization uses the stored geometry and flags).  In a state reached
from construction by the steps `ops`, with the window visible and a non-empty
frame pending, the frame step of the next worker wake issues, when no surface is
realized, exactly `namedWindow(name, flags)`, `moveWindow(name, x, y)`,
`imshow(name, F)`, `waitKey(w)` in this order, where `flags`, `(x, y)` and `w`
are the values most recently given to `setWindowFlags`, `setWindowLocation` and
`setWaitKey` (by default `WINDOW_NORMAL`, `(0, 0)` and `1`) and `F` is the
pending frame; when a surface is realized it issues only `imshow(name, F)` and
`waitKey(w)`.  Afterwards the lifecycle state is Realized, and the worker wake
is this frame step followed by the command drain. -/
theorem realization_uses_stored_settings (windowName : String) (ops : List Op) (s : State)
    (hrun : run ops (init windowName) = some s) (hvis : s.m_display = true)
    (hpend : s.m_isNewImg = true) (hne : s.m_newImg.empty = false) :
    ∃ s1, frameStep s = some s1 ∧
      s1.trace = s.trace ++
        (if s.m_isWindowDistroyed then
          [.namedWindow s.m_windowName (lastWindowFlags ops),
           .moveWindow s.m_windowName (lastWindowLocation ops).1 (lastWindowLocation ops).2]
         else []) ++
        [.imshow s.m_windowName s.m_newImg, .waitKey (lastWaitKey ops)] ∧
      s1.m_isWindowDistroyed = false ∧
      workerWake s = some { drain s1 with pc := WorkerPc.atLoopHead } := by
  have hinv : Inv s := (run_inv ops _ s (init_inv windowName) hrun).1
  obtain ⟨hf, hxy, hw⟩ := run_settings ops _ s (init_inv windowName) hrun
  have hf2 : s.m_windowFlags = lastWindowFlags ops := hf
  have hw2 : s.m_waitKey = lastWaitKey ops := hw
  have hx : s.m_x = (lastWindowLocation ops).1 := congrArg Prod.fst hxy
  have hy : s.m_y = (lastWindowLocation ops).2 := congrArg Prod.snd hxy
  refine ⟨_, frameStep_eq s hinv.unlocked, ?_, ?_, ?_⟩
  · simp [frameCalls, hvis, hpend, hne, hf2, hw2, hx, hy]
  · simp [hvis, hpend, hne]
  · rw [workerWake_eq s hinv]
    cases hd : s.m_isWindowDistroyed <;>
      simp [wakeResult, wakeCalls, hideCalls, frameCalls, drainCalls, drain, drainBuffer_eq,
        hvis, hpend, hne, hd]

theorem realization_uses_stored_settings_witness :
    run placedWOps (init "W") = some placedW ∧ placedW.m_display = true ∧
    placedW.m_isNewImg = true ∧ placedW.m_newImg.empty = false ∧
    ∃ s1, frameStep placedW = some s1 ∧
      s1.trace = placedW.trace ++
        (if placedW.m_isWindowDistroyed then
          [.namedWindow placedW.m_windowName (lastWindowFlags placedWOps),
           .moveWindow placedW.m_windowName (lastWindowLocation placedWOps).1
             (lastWindowLocation placedWOps).2]
         else []) ++
        [.imshow placedW.m_windowName placedW.m_newImg, .waitKey (lastWaitKey placedWOps)] ∧
      s1.m_isWindowDistroyed = false ∧
      workerWake placedW = some { drain s1 with pc := WorkerPc.atLoopHead } :=
  ⟨by decide, rfl, rfl, rfl,
    realization_uses_stored_settings "W" placedWOps placedW (by decide) rfl rfl rfl⟩

/-! ## Teardown with a missed notification -/

/-- A worker inside `wait` that the notification did not reach keeps the
destructor from returning, whatever the fuel. -/
theorem destructor_blocked (fuel : Nat) (s : State) (h : Inv s)
    (hpc : s.pc = WorkerPc.waiting) : destructor false fuel s = none := by
  cases fuel with
  | zero => exact destructor_zero false s h
  | succ fuel =>
      rw [destructor_eq false fuel s h, if_pos ⟨hpc, rfl⟩]

/-- C10 (teardown reaches NoSurface), evaluated on the code.  Window `"W"` has
shown `frameA` and the worker has gone back into `wait` with the surface
realized.  When the `notify_all` of the destructor does not reach the worker,
`join` does not return for any amount of scheduling: the final `destroyWindow`
is not issued and the surface stays realized.  When it does reach the worker,
the destructor completes, the worker has exited and the only call made is
`destroyWindow("W")`. -/
theorem destructor_blocks_on_missed_notification :
    run idleWOps (init "W") = some idleW ∧ idleW.pc = WorkerPc.waiting ∧
    idleW.m_isWindowDistroyed = false ∧
    (∀ fuel, destructor false fuel idleW = none) ∧
    (destructor true 1 idleW).map (fun s => (s.m_isAlive, s.pc,
        s.trace.drop idleW.trace.length)) =
      some (false, WorkerPc.exited, [.destroyWindow "W"]) :=
  ⟨by decide, rfl, rfl,
    fun fuel => destructor_blocked fuel idleW ⟨rfl, rfl, by decide⟩ rfl, by decide⟩

end CvImshowThread
